import Mathlib

set_option maxHeartbeats 1000000
set_option maxRecDepth 4000
set_option linter.unusedVariables false

/-!
Verification development for the Sanskritam local SPL engine
(`src/services/splEngine.ts` and the `generateCpp` variant in
`src/unnamed/part_003`), a lexer + direct statement interpreter +
best-effort code generator for a dual-script toy language.

Modelling conventions (shallow embedding of the TypeScript source):
* JS strings are iterated as Lean `Char` code points.  The source iterates
  UTF-16 code units; the two coincide on all characters of the Basic
  Multilingual Plane, which covers both scripts of the language.  Inputs
  with astral-plane characters (always lexical errors here) may differ in
  error counts only.
* JS numbers are modelled as exact rationals (`JNum`, a gcd-normalised
  numerator/denominator pair, so that concrete runs compute by kernel
  reduction) instead of IEEE-754 float64.  All arithmetic relevant to the
  claims is integer-valued and exact in both representations.  `NaN`,
  signed infinities and float rounding are not modelled: in the model,
  division by zero yields 0 and converting a non-numeric string to a
  number yields 0 (JS yields NaN).  No claim below depends on these
  corners.
* The JS environment object is modelled as an own-property association
  list; inherited `Object.prototype` members (`toString` etc.) are not
  modelled as lookup hits.
-/

/-! ## Token and value data model -/

inductive TokenType where
  | KEYWORD | IDENTIFIER | NUMBER | STRING | OPERATOR | PUNCTUATION | COMMENT
deriving DecidableEq, Repr

structure Token where
  type : TokenType
  value : String
  line : Nat
  col : Nat
deriving DecidableEq, Repr

instance : Inhabited Token := ⟨⟨TokenType.KEYWORD, "", 0, 0⟩⟩

inductive ScriptMode where
  | ROMAN | DEVANAGARI
deriving DecidableEq, Repr

/-- Exact rational stand-in for the JS float64: a gcd-normalised
numerator/denominator pair.  Every value in the development is built
through `mkQ`/`mkQi`/the numeral instance, so the representation is
canonical and derived structural equality is value equality. -/
structure JNum where
  num : Int
  den : Nat
deriving DecidableEq, Repr

/-- Normalising constructor (denominator 0, which only arises from the
modelled division by zero, collapses to 0). -/
def mkQ (n : Int) (d : Nat) : JNum :=
  if d = 0 then ⟨0, 1⟩
  else
    let g := Nat.gcd n.natAbs d
    ⟨n / g, d / g⟩

/-- `mkQ` with a signed denominator. -/
def mkQi (n d : Int) : JNum :=
  if d < 0 then mkQ (-n) (-d).toNat else mkQ n d.toNat

instance (n : Nat) : OfNat JNum n := ⟨⟨(n : Int), 1⟩⟩

def JNum.add (x y : JNum) : JNum :=
  mkQ (x.num * y.den + y.num * x.den) (x.den * y.den)

def JNum.sub (x y : JNum) : JNum :=
  mkQ (x.num * y.den - y.num * x.den) (x.den * y.den)

def JNum.mul (x y : JNum) : JNum := mkQ (x.num * y.num) (x.den * y.den)

/-- Division; a zero divisor yields 0 in the model (JS: ±Infinity/NaN,
see header). -/
def JNum.div (x y : JNum) : JNum := mkQi (x.num * y.den) (x.den * y.num)

/-- Value order (denominators are positive on all constructed values). -/
def JNum.blt (x y : JNum) : Bool := x.num * y.den < y.num * x.den

def qNeg (x : JNum) : JNum := ⟨-x.num, x.den⟩

/-- Runtime values produced by the engine: a closed union
Number | String | Boolean | Null (numbers modelled as `JNum`, see
header). -/
inductive Value where
  | num (q : JNum)
  | str (s : String)
  | bool (b : Bool)
  | null
deriving DecidableEq, Repr

structure SanskritamError where
  line : Nat
  column : Nat
  message : String
  word : String
deriving DecidableEq, Repr

/-! ## Keyword table (`src/constants.ts`, full 20-entry variant) -/

structure KeywordEntry where
  roman : String
  devanagari : String
deriving DecidableEq, Repr

def kwPRINT : KeywordEntry := ⟨"vadatu", "वदतु"⟩
def kwIF : KeywordEntry := ⟨"yadi", "यदि"⟩
def kwTHEN : KeywordEntry := ⟨"tarhi", "तर्हि"⟩
def kwELSE : KeywordEntry := ⟨"anyatha", "अन्यथा"⟩
def kwFUNCTION : KeywordEntry := ⟨"karyam", "कार्यम्"⟩
def kwVALUE : KeywordEntry := ⟨"mulyam", "मूल्यम्"⟩
def kwFOR : KeywordEntry := ⟨"krute", "कृते"⟩
def kwWHILE : KeywordEntry := ⟨"yavat", "यावत्"⟩
def kwCONTINUE : KeywordEntry := ⟨"anuvartatu", "अनुवर्ततु"⟩
def kwBREAK : KeywordEntry := ⟨"viramatu", "विरमतु"⟩
def kwRETURN : KeywordEntry := ⟨"pratyarpayatu", "प्रत्यर्पयतु"⟩
def kwEND : KeywordEntry := ⟨"samaptam", "समाप्तम्"⟩
def kwTRUE : KeywordEntry := ⟨"satyam", "सत्यम्"⟩
def kwFALSE : KeywordEntry := ⟨"asatyam", "असत्यम्"⟩
def kwTRY : KeywordEntry := ⟨"prayatnam", "प्रयत्नम्"⟩
def kwCATCH : KeywordEntry := ⟨"grihnatu", "गृह्णातु"⟩
def kwTHROW : KeywordEntry := ⟨"kshipatu", "क्षिपतु"⟩
def kwCLASS : KeywordEntry := ⟨"shreni", "श्रेणी"⟩
def kwIMPORT : KeywordEntry := ⟨"anayati", "आनयति"⟩
def kwNULL : KeywordEntry := ⟨"shunyam", "शून्यम्"⟩

/-- `KEYWORDS` in JS object insertion order (keys are the semantic roles). -/
def KEYWORDS : List (String × KeywordEntry) :=
  [("PRINT", kwPRINT), ("IF", kwIF), ("THEN", kwTHEN), ("ELSE", kwELSE),
   ("FUNCTION", kwFUNCTION), ("VALUE", kwVALUE), ("FOR", kwFOR),
   ("WHILE", kwWHILE), ("CONTINUE", kwCONTINUE), ("BREAK", kwBREAK),
   ("RETURN", kwRETURN), ("END", kwEND), ("TRUE", kwTRUE), ("FALSE", kwFALSE),
   ("TRY", kwTRY), ("CATCH", kwCATCH), ("THROW", kwTHROW), ("CLASS", kwCLASS),
   ("IMPORT", kwIMPORT), ("NULL", kwNULL)]

/-- `Object.values(KEYWORDS).some(k => k.roman === val || k.devanagari === val)` -/
def isKeywordVal (val : String) : Bool :=
  KEYWORDS.any (fun kv => kv.2.roman = val || kv.2.devanagari = val)

/-! ## Character predicates of the lexer -/

/-- `/[0-9]/.test(char) || /[०-९]/.test(char)` -/
def isDigitChar (c : Char) : Bool :=
  ('0' ≤ c && c ≤ '9') || ('०' ≤ c && c ≤ '९')

/-- `/[a-zA-Z_]/.test(char) || (char >= 'ऀ' && char <= 'ॿ')` -/
def isAlphaChar (c : Char) : Bool :=
  ('a' ≤ c && c ≤ 'z') || ('A' ≤ c && c ≤ 'Z') || c = '_' ||
  ('ऀ' ≤ c && c ≤ 'ॿ')

/-- The JS regex `\s` character class. -/
def jsWhitespace (c : Char) : Bool :=
  c = ' ' || c = '\t' || c = '\n' || c = '\r' || c = '\x0b' || c = '\x0c' ||
  c = '\u00A0' || c = '\u1680' || ('\u2000' ≤ c && c ≤ '\u200A') ||
  c = '\u2028' || c = '\u2029' || c = '\u202F' || c = '\u205F' ||
  c = '\u3000' || c = '\uFEFF'

/-- The Devanagari-to-ASCII digit table `d2r`. -/
def d2rChar : Char → Option Char
  | '०' => some '0'
  | '१' => some '1'
  | '२' => some '2'
  | '३' => some '3'
  | '४' => some '4'
  | '५' => some '5'
  | '६' => some '6'
  | '७' => some '7'
  | '८' => some '8'
  | '९' => some '9'
  | _ => none

/-- `this.d2r[c] || c`: normalise one character as the number scanner stores it. -/
def normChar (c : Char) : Char := (d2rChar c).getD c

/-- Continuation predicate of the number scanner: digit (either script) or dot. -/
def isNumCont (c : Char) : Bool := isDigitChar c || c = '.'

/-- Continuation predicate of the keyword/identifier scanner. -/
def isWordCont (c : Char) : Bool := isAlphaChar c || isDigitChar c

def opStartChar (c : Char) : Bool :=
  c = '+' || c = '-' || c = '*' || c = '/' || c = '%' || c = '=' || c = '<' ||
  c = '>' || c = '!' || c = '&' || c = '|'

def opEqFollows (c : Char) : Bool := c = '=' || c = '<' || c = '>' || c = '!'

def punctChar (c : Char) : Bool := c = '(' || c = ')' || c = ','

/-! ## The lexer (`tokenize`, splEngine.ts lines 43–136) -/

def charsToString (cs : List Char) : String := String.mk cs

/-- Scan predicate of the string branch (`this.code[i] !== '"'`). -/
def notQuote (c : Char) : Bool := c ≠ '"'

/-- Scan predicate of the comment branch (`this.code[i] !== '\n'`). -/
def notNewline (c : Char) : Bool := c ≠ '\n'

theorem dwLenLe {α : Type} (p : α → Bool) (l : List α) :
    (l.dropWhile p).length ≤ l.length := by
  induction l with
  | nil => simp
  | cons a l ih =>
    rw [List.dropWhile_cons]
    split
    · simp; omega
    · simp

/-- One left-to-right scan; mirrors the `while` loop of `tokenize` with the
source as the remaining character list.  The first argument is structural
fuel so that concrete runs compute by kernel reduction: every iteration
consumes at least one character and passes `fuel` on, so the fuel-exhausted
default is unreachable from the `tokenize` wrapper, which supplies the
character count. -/
def tokenizeLoop : Nat → List Char → Nat → Nat →
    List Token × List SanskritamError
  | _, [], _, _ => ([], [])
  | 0, _ :: _, _, _ => ([], [])
  | fuel + 1, c :: rest, line, col =>
    if c = '\n' then
      tokenizeLoop fuel rest (line + 1) 1
    else if jsWhitespace c then
      tokenizeLoop fuel rest line (col + 1)
    else if c = '/' && rest.head? = some '/' then
      -- comment: consume to end of line (column counter is not advanced)
      tokenizeLoop fuel (rest.dropWhile notNewline) line col
    else if c = '"' then
      let val := rest.takeWhile notQuote
      let after := (rest.dropWhile notQuote).drop 1
      (⟨TokenType.STRING, charsToString val, line, col⟩ ::
         (tokenizeLoop fuel after line (col + val.length + 2)).1,
       (tokenizeLoop fuel after line (col + val.length + 2)).2)
    else if isDigitChar c then
      let raw := (c :: rest).takeWhile isNumCont
      let after := (c :: rest).dropWhile isNumCont
      (⟨TokenType.NUMBER, charsToString (raw.map normChar), line, col⟩ ::
         (tokenizeLoop fuel after line (col + raw.length)).1,
       (tokenizeLoop fuel after line (col + raw.length)).2)
    else if isAlphaChar c then
      let raw := (c :: rest).takeWhile isWordCont
      let after := (c :: rest).dropWhile isWordCont
      let val := charsToString raw
      let ty := if isKeywordVal val then TokenType.KEYWORD
                else TokenType.IDENTIFIER
      (⟨ty, val, line, col⟩ ::
         (tokenizeLoop fuel after line (col + raw.length)).1,
       (tokenizeLoop fuel after line (col + raw.length)).2)
    else if opStartChar c then
      if opEqFollows c && rest.head? = some '=' then
        (⟨TokenType.OPERATOR, charsToString [c, '='], line, col⟩ ::
           (tokenizeLoop fuel rest.tail line (col + 2)).1,
         (tokenizeLoop fuel rest.tail line (col + 2)).2)
      else
        (⟨TokenType.OPERATOR, charsToString [c], line, col⟩ ::
           (tokenizeLoop fuel rest line (col + 1)).1,
         (tokenizeLoop fuel rest line (col + 1)).2)
    else if punctChar c then
      (⟨TokenType.PUNCTUATION, charsToString [c], line, col⟩ ::
         (tokenizeLoop fuel rest line (col + 1)).1,
       (tokenizeLoop fuel rest line (col + 1)).2)
    else
      ((tokenizeLoop fuel rest line (col + 1)).1,
       ⟨line, col, "Unexpected character: " ++ c.toString, c.toString⟩ ::
         (tokenizeLoop fuel rest line (col + 1)).2)

/-- `tokenize()`: the token stream and collected lexical errors of a source. -/
def tokenize (code : String) : List Token × List SanskritamError :=
  tokenizeLoop code.data.length code.data 1 1

/-! ## JS value semantics used by the evaluator -/

def isAsciiDigit (c : Char) : Bool := '0' ≤ c && c ≤ '9'

def digitsVal (cs : List Char) : Nat :=
  cs.foldl (fun n c => 10 * n + (c.toNat - 48)) 0

def digitToChar (d : Nat) : Char := Char.ofNat (48 + d)

def natStrAux : Nat → Nat → List Char
  | 0, _ => []
  | fuel + 1, n =>
    if n < 10 then [digitToChar n]
    else natStrAux fuel (n / 10) ++ [digitToChar (n % 10)]

def natStr (n : Nat) : String := charsToString (natStrAux (n + 1) n)

/-- `parseFloat` restricted to the shapes a Number token can carry
(a digit/dot run): longest numeric prefix, junk after it ignored.
`parseFloat` of a string with no numeric prefix is NaN in JS, 0 here. -/
def parseFloatQ (s : String) : JNum :=
  let cs := s.data
  let ip := cs.takeWhile isAsciiDigit
  match cs.dropWhile isAsciiDigit with
  | '.' :: r =>
    let fp := r.takeWhile isAsciiDigit
    JNum.add ⟨(digitsVal ip : Int), 1⟩ (mkQ (digitsVal fp) (10 ^ fp.length))
  | _ => ⟨(digitsVal ip : Int), 1⟩

/-- `Number(string)` coercion: trim, empty → 0, a full decimal literal → its
value; other strings are NaN in JS, modelled as 0 (see header). -/
def jsStrToNumber (s : String) : JNum :=
  let t0 := s.data.dropWhile jsWhitespace
  let t := (t0.reverse.dropWhile jsWhitespace).reverse
  match t with
  | [] => 0
  | _ =>
    let neg : Bool := t.head? = some '-'
    let body := if t.head? = some '-' || t.head? = some '+' then t.tail else t
    let ip := body.takeWhile isAsciiDigit
    let signed : JNum → JNum := fun v => if neg then qNeg v else v
    match body.dropWhile isAsciiDigit with
    | [] => if ip.isEmpty then 0 else signed ⟨(digitsVal ip : Int), 1⟩
    | '.' :: r =>
      let fp := r.takeWhile isAsciiDigit
      if (r.dropWhile isAsciiDigit).isEmpty &&
          !(ip.isEmpty && fp.isEmpty) then
        signed (JNum.add ⟨(digitsVal ip : Int), 1⟩
          (mkQ (digitsVal fp) (10 ^ fp.length)))
      else 0
    | _ => 0

/-- `ToNumber` on engine values. -/
def jsToNumber : Value → JNum
  | Value.num q => q
  | Value.str s => jsStrToNumber s
  | Value.bool b => if b then 1 else 0
  | Value.null => 0

/-- JS number-to-string for the integral values the claims exercise;
non-integral rationals (JS would print a float decimal) are rendered as a
fraction — no claim depends on that case. -/
def qToString (q : JNum) : String :=
  if q.den = 1 then
    (if q.num < 0 then "-" ++ natStr q.num.natAbs else natStr q.num.natAbs)
  else
    (if q.num < 0 then "-" else "") ++ natStr q.num.natAbs ++ "/" ++ natStr q.den

/-- `String(value)` / `ToString`. -/
def jsToString : Value → String
  | Value.num q => qToString q
  | Value.str s => s
  | Value.bool b => if b then "true" else "false"
  | Value.null => "null"

/-- JS truthiness (`!condition` tests); NaN is not modelled (see header). -/
def jsTruthy : Value → Bool
  | Value.num q => decide (q.num ≠ 0)
  | Value.str s => decide (s ≠ "")
  | Value.bool b => b
  | Value.null => false

/-- Lexicographic character-list comparison (JS string `<`; code points
stand in for UTF-16 units, identical on the BMP). -/
def charListLt : List Char → List Char → Bool
  | [], [] => false
  | [], _ :: _ => true
  | _ :: _, [] => false
  | a :: as, b :: bs =>
    if a < b then true else if b < a then false else charListLt as bs

/-- JS abstract relational comparison `a < b`. -/
def jsLt (a b : Value) : Bool :=
  match a, b with
  | Value.str s, Value.str t => charListLt s.data t.data
  | _, _ => JNum.blt (jsToNumber a) (jsToNumber b)

/-- JS `+`: string concatenation when either operand is a string,
numeric addition otherwise. -/
def jsAdd (a b : Value) : Value :=
  match a, b with
  | Value.str s, _ => Value.str (s ++ jsToString b)
  | _, Value.str t => Value.str (jsToString a ++ t)
  | _, _ => Value.num (JNum.add (jsToNumber a) (jsToNumber b))

/-- One step of the reduction (`evaluateExpression` lines 166–174):
the if/else-if chain over the operator text; an operator outside the
nine listed leaves the running result unchanged (no final else). -/
def applyOp (op : String) (res next : Value) : Value :=
  if op = "+" then jsAdd res next
  else if op = "-" then Value.num (JNum.sub (jsToNumber res) (jsToNumber next))
  else if op = "*" then Value.num (JNum.mul (jsToNumber res) (jsToNumber next))
  else if op = "/" then Value.num (JNum.div (jsToNumber res) (jsToNumber next))
  else if op = "==" then Value.bool (decide (res = next))
  else if op = "<" then Value.bool (jsLt res next)
  else if op = ">" then Value.bool (jsLt next res)
  else if op = "<=" then Value.bool (!jsLt next res)
  else if op = ">=" then Value.bool (!jsLt res next)
  else res

/-! ## Environment -/

/-- Own-property lookup on `this.variables`. -/
def envGet : List (String × Value) → String → Option Value
  | [], _ => none
  | (k, v) :: rest, key => if k = key then some v else envGet rest key

/-- JS object property assignment (update in place or append). -/
def envSet : List (String × Value) → String → Value → List (String × Value)
  | [], key, v => [(key, v)]
  | (k, w) :: rest, key, v =>
    if k = key then (key, v) :: rest else (k, w) :: envSet rest key v

/-! ## Expression evaluator (`evaluateExpression`, lines 140–188) -/

/-- `getPrimitiveValue(t)`; the argument is `Option` because the caller may
pass `tokens[i+1]` past the end of the array (JS `undefined`, handled by
the `if (!t)` guard).  The `?? 0` of the source coalesces a stored `null`
to 0 as well. -/
def getPrimitiveValue (env : List (String × Value)) : Option Token → Value
  | none => Value.num 0
  | some t =>
    if t.type = TokenType.NUMBER then Value.num (parseFloatQ t.value)
    else if t.type = TokenType.STRING then Value.str t.value
    else if t.type = TokenType.IDENTIFIER then
      match envGet env t.value with
      | some v => if v = Value.null then Value.num 0 else v
      | none => Value.num 0
    else Value.num 0

/-- The `for (let i = 1; i < tokens.length; i += 2)` reduction, with
structural fuel (the callers pass the token count, which bounds the
iteration count since `i` grows by two per step). -/
def reduceLoop (env : List (String × Value)) (tokens : List Token) :
    Nat → Value → Nat → Value
  | 0, res, _ => res
  | fuel + 1, res, i =>
    if i < tokens.length then
      reduceLoop env tokens fuel
        (applyOp (((tokens[i]?).getD default).value) res
          (getPrimitiveValue env tokens[i + 1]?))
        (i + 2)
    else res

/-- `evaluateExpression(tokens)`.  A single-token span of a kind other than
Number/String/Identifier (e.g. a Keyword) falls through to the reduction,
which returns its primitive value (numeric 0). -/
def evaluateExpression (env : List (String × Value)) (tokens : List Token) :
    Value :=
  match tokens with
  | [] => Value.null
  | [t] =>
    if t.type = TokenType.NUMBER then Value.num (parseFloatQ t.value)
    else if t.type = TokenType.STRING then Value.str t.value
    else if t.type = TokenType.IDENTIFIER then
      match envGet env t.value with
      | some v => v
      | none =>
        if t.value = kwTRUE.roman || t.value = kwTRUE.devanagari then
          Value.bool true
        else if t.value = kwFALSE.roman || t.value = kwFALSE.devanagari then
          Value.bool false
        else if t.value = kwNULL.roman || t.value = kwNULL.devanagari then
          Value.null
        else Value.num 0
    else reduceLoop env [t] 1 (getPrimitiveValue env (some t)) 1
  | t0 :: t1 :: rest =>
    reduceLoop env (t0 :: t1 :: rest) (t0 :: t1 :: rest).length
      (getPrimitiveValue env (some t0)) 1

/-! ## Statement interpreter (`execute`, splEngine.ts lines 198–299) -/

structure DebugSnapshot where
  line : Nat
  -- the source names this field `variables`; that is a reserved word here
  vars : List (String × Value)
  stdout : String
deriving DecidableEq, Repr

structure InterpState where
  vars : List (String × Value)
  stdout : List String
  trace : List DebugSnapshot
deriving DecidableEq, Repr

/-- `this.stdout.join('\n')` -/
def joinLines : List String → String
  | [] => ""
  | [x] => x
  | x :: y :: rest => x ++ "\n" ++ joinLines (y :: rest)

/-- `captureSnapshot(line)`: the JSON round-trip deep copy is the identity
on the finite numbers/strings/booleans/nulls the engine stores. -/
def pushSnapshot (st : InterpState) (line : Nat) : InterpState :=
  { st with trace :=
      st.trace ++ [⟨line, st.vars, joinLines st.stdout⟩] }

/-- The same-line expression-span scan
(`while (j < len && tokens[j].line === token.line)`). -/
def sameLineSpan (tokens : List Token) (j : Nat) (line : Nat) : List Token :=
  (tokens.drop j).takeWhile (fun t => t.line == line)

def isValueVal (v : String) : Bool := v = kwVALUE.roman || v = kwVALUE.devanagari
def isPrintVal (v : String) : Bool := v = kwPRINT.roman || v = kwPRINT.devanagari
def isIfVal (v : String) : Bool := v = kwIF.roman || v = kwIF.devanagari
def isThenVal (v : String) : Bool := v = kwTHEN.roman || v = kwTHEN.devanagari
def isEndVal (v : String) : Bool := v = kwEND.roman || v = kwEND.devanagari

/-- The falsy-branch block skip: number of tokens the
`while (j < len && depth > 0)` scan consumes from the remaining stream.
Both `if`s of the body apply to the same token, as in the source. -/
def skipScanL : List Token → Nat → Nat
  | _, 0 => 0
  | [], _ + 1 => 0
  | t :: ts, d + 1 =>
    skipScanL ts
      ((if isIfVal t.value then d + 2 else d + 1) -
        (if isEndVal t.value then 1 else 0)) + 1

/-- The statement dispatch loop of `execute`, with structural fuel (the
wrapper passes one more than the token count; the index grows by at least
one per iteration, so fuel never runs out there).  The source's separate
`if` blocks with `continue` are rendered as a single chain: a VALUE keyword
not followed by `=` at `i+2` falls through every other test (its value is no
other keyword and its type is KEYWORD) and lands in the default `i++`,
exactly as in the source. -/
def interpLoop (tokens : List Token) : Nat → Nat → InterpState → InterpState
  | 0, _, st => st
  | fuel + 1, i, st =>
    match tokens[i]? with
    | none => st
    | some token =>
      if isValueVal token.value &&
          ((tokens[i + 2]?).map Token.value == some "=") then
        -- `const id = this.tokens[i+1]?.value` (always present when i+2 is)
        let id := (((tokens[i + 1]?).map Token.value)).getD "undefined"
        let exprTokens := sameLineSpan tokens (i + 3) token.line
        let v := evaluateExpression st.vars exprTokens
        let st1 := pushSnapshot { st with vars := envSet st.vars id v }
          token.line
        interpLoop tokens fuel (i + 3 + exprTokens.length) st1
      else if isPrintVal token.value then
        let exprTokens := sameLineSpan tokens (i + 1) token.line
        let v := evaluateExpression st.vars exprTokens
        let st1 := pushSnapshot
          { st with stdout := st.stdout ++ [jsToString v] } token.line
        interpLoop tokens fuel (i + 1 + exprTokens.length) st1
      else if isIfVal token.value then
        let condTokens := (tokens.drop (i + 1)).takeWhile
          (fun t => !isThenVal t.value)
        let j := i + 1 + condTokens.length
        let cond := evaluateExpression st.vars condTokens
        let st1 := pushSnapshot st token.line
        if jsTruthy cond then
          interpLoop tokens fuel (j + 1) st1
        else
          interpLoop tokens fuel (j + 1 + skipScanL (tokens.drop (j + 1)) 1)
            st1
      else if isEndVal token.value then
        interpLoop tokens fuel (i + 1) (pushSnapshot st token.line)
      else if token.type = TokenType.IDENTIFIER &&
          ((tokens[i + 1]?).map Token.value == some "=") then
        let exprTokens := sameLineSpan tokens (i + 2) token.line
        let v := evaluateExpression st.vars exprTokens
        let st1 := pushSnapshot
          { st with vars := envSet st.vars token.value v } token.line
        interpLoop tokens fuel (i + 2 + exprTokens.length) st1
      else
        interpLoop tokens fuel (i + 1) st

/-- The whole statement loop from a fresh engine state. -/
def runInterp (tokens : List Token) : InterpState :=
  interpLoop tokens (tokens.length + 1) 0 ⟨[], [], []⟩

/-! ## Code generator of splEngine.ts (`generateCpp`, lines 301–334):
line-by-line keyword substitution with `\b(roman|devanagari)\b` regexes. -/

/-- The regex `\w` class underlying `\b`. -/
def isWordCharJs (c : Char) : Bool :=
  ('a' ≤ c && c ≤ 'z') || ('A' ≤ c && c ≤ 'Z') || ('0' ≤ c && c ≤ '9') ||
  c = '_'

/-- `\b`: the two sides differ in `\w`-membership (outside the string counts
as non-word). -/
def wordBoundary (l r : Option Char) : Bool :=
  (l.elim false isWordCharJs) != (r.elim false isWordCharJs)

/-- Does the literal word `w` match at the head of `s`, with `\b` holding on
both sides (`prev` is the character before the current position)? -/
def matchAt (prev : Option Char) (w s : List Char) : Bool :=
  w.isPrefixOf s && wordBoundary prev w.head? &&
  wordBoundary w.getLast? (s.drop w.length).head?

/-- Global `String.replace` with pattern `\b(w1|w2)\b` (alternation tried
left to right, scan resumes after each match on the original text). -/
def replaceScanB (w1 w2 repl : List Char) (prev : Option Char)
    (s : List Char) : List Char :=
  match s with
  | [] => []
  | c :: cs =>
    if h1 : w1 ≠ [] ∧ matchAt prev w1 (c :: cs) = true then
      repl ++ replaceScanB w1 w2 repl w1.getLast? ((c :: cs).drop w1.length)
    else if h2 : w2 ≠ [] ∧ matchAt prev w2 (c :: cs) = true then
      repl ++ replaceScanB w1 w2 repl w2.getLast? ((c :: cs).drop w2.length)
    else
      c :: replaceScanB w1 w2 repl (some c) cs
termination_by s.length
decreasing_by
  · have : w1.length ≠ 0 := fun hz => h1.1 (List.length_eq_zero.mp hz)
    simp only [List.length_drop, List.length_cons]
    omega
  · have : w2.length ≠ 0 := fun hz => h2.1 (List.length_eq_zero.mp hz)
    simp only [List.length_drop, List.length_cons]
    omega
  · simp only [List.length_cons]; omega

def replaceKwB (s : String) (kw : KeywordEntry) (repl : String) : String :=
  charsToString (replaceScanB kw.roman.data kw.devanagari.data repl.data none s.data)

/-- Regex `.`: any character but a line terminator. -/
def dotChar (c : Char) : Bool :=
  !(c = '\n' || c = '\r' || c = ' ' || c = ' ')

/-- Backtracked greedy capture of `(.+)\b`: the largest `k ≥ 1` such that a
word boundary holds after the `k`-th captured character. -/
def greedyCaptureLen (run : List Char) (next : Option Char) : Option Nat :=
  (List.range run.length).reverse.findSome? (fun k0 =>
    let k := k0 + 1
    let right := if k < run.length then run[k]? else next
    if wordBoundary run[k0]? right then some k else none)

/-- First-match `trimmed.replace(/= (.+)\b/, '= $1;')`. -/
def replaceEqScan : List Char → List Char
  | [] => []
  | '=' :: ' ' :: rest =>
    let run := rest.takeWhile dotChar
    let next := (rest.dropWhile dotChar).head?
    (match greedyCaptureLen run next with
     | some k => '=' :: ' ' :: (rest.take k ++ ';' :: rest.drop k)
     | none => '=' :: replaceEqScan (' ' :: rest))
  | c :: cs => c :: replaceEqScan cs
termination_by s => s.length

def strStartsWith (s pre : String) : Bool := pre.data.isPrefixOf s.data
def strEndsWith (s suff : String) : Bool := suff.data.isSuffixOf s.data

def listInfix (sub : List Char) : List Char → Bool
  | [] => sub.isEmpty
  | c :: rest => sub.isPrefixOf (c :: rest) || listInfix sub rest

/-- JS `String.prototype.includes`. -/
def strContains (s sub : String) : Bool := listInfix sub.data s.data

def jsTrim (s : String) : String :=
  charsToString
    (((s.data.dropWhile jsWhitespace).reverse.dropWhile jsWhitespace).reverse)

/-- The per-line keyword mapping of `generateCpp`.  Iterating the 20-entry
table only acts for PRINT, IF, THEN, VALUE, END (in that object order); the
PRINT step appends `);` to every line, matched or not, exactly as in the
source. -/
def transpileLine (trimmed : String) : String :=
  let t1 := replaceKwB trimmed kwPRINT "san::vadatu(" ++ ");"
  let t2 := replaceKwB t1 kwIF "if ("
  let t3 := replaceKwB t2 kwTHEN ") \x7b"
  let t4 := replaceKwB t3 kwVALUE "auto "
  let t5 := replaceKwB t4 kwEND "\x7d"
  let t6 := charsToString (replaceEqScan t5.data)
  if strContains t6 "if" && !strEndsWith t6 "\x7b" then t6 ++ ")" else t6

def generateCppLines (code : String) : String :=
  let body := (code.splitOn "\n").foldl (fun acc lineStr =>
    let trimmed := jsTrim lineStr
    if trimmed = "" then acc
    else if strStartsWith trimmed "//" then acc ++ "  " ++ trimmed ++ "\n"
    else acc ++ "  " ++ transpileLine trimmed ++ "\n") ""
  "#include \"Sanskritam.h\"\n\nint main() \x7b\n" ++ body ++ "  return 0;\n\x7d"

/-! ## `execute` -/

structure CodeOutput where
  stdout : String
  explanation : String
  transpiled : String
  tokens : List (String × String)
  errors : List SanskritamError
  debugTrace : Option (List DebugSnapshot)
deriving DecidableEq, Repr

/-- `execute` plus the engine's final `this.variables`, exposed so that
claims about Environment state are statable. -/
structure EngineRun where
  output : CodeOutput
  finalVars : List (String × Value)
deriving DecidableEq, Repr

def typeName : TokenType → String
  | TokenType.KEYWORD => "KEYWORD"
  | TokenType.IDENTIFIER => "IDENTIFIER"
  | TokenType.NUMBER => "NUMBER"
  | TokenType.STRING => "STRING"
  | TokenType.OPERATOR => "OPERATOR"
  | TokenType.PUNCTUATION => "PUNCTUATION"
  | TokenType.COMMENT => "COMMENT"

/-- `execute()` (the `mode` constructor argument is never consulted by the
engine). -/
def executeFull (code : String) (mode : ScriptMode) : EngineRun :=
  let toks := (tokenize code).1
  let errs := (tokenize code).2
  if errs.length > 0 then
    ⟨⟨"", "Syntax errors detected.", "", [], errs, none⟩, []⟩
  else
    let st := runInterp toks
    ⟨⟨joinLines st.stdout,
      "Local SPL Engine executed the code successfully. Semantic connections verified.",
      generateCppLines code,
      toks.map (fun t => (t.value, typeName t.type)),
      errs,
      some st.trace⟩,
     st.vars⟩

def execute (code : String) (mode : ScriptMode) : CodeOutput :=
  (executeFull code mode).output

/-! ## Exception-instrumented mirror of the interpreter (claim C4).
Every array element whose field (`/.value/.line/.type`) the source reads
without optional chaining is fetched through `atE`, which errors exactly
where JS would raise a TypeError on `undefined`; arithmetic on the engine's
primitive values cannot throw in JS and stays pure. -/

def atE (l : List Token) (i : Nat) : Except String Token :=
  match l[i]? with
  | some t => Except.ok t
  | none => Except.error "TypeError: cannot read properties of undefined"

def reduceLoopE (env : List (String × Value)) (tokens : List Token) :
    Nat → Value → Nat → Except String Value
  | 0, res, _ => pure res
  | fuel + 1, res, i =>
    if i < tokens.length then do
      let t ← atE tokens i
      reduceLoopE env tokens fuel
        (applyOp t.value res (getPrimitiveValue env tokens[i + 1]?)) (i + 2)
    else pure res

def evaluateExpressionE (env : List (String × Value)) (tokens : List Token) :
    Except String Value :=
  match tokens with
  | [] => pure Value.null
  | [t] =>
    if t.type = TokenType.NUMBER then pure (Value.num (parseFloatQ t.value))
    else if t.type = TokenType.STRING then pure (Value.str t.value)
    else if t.type = TokenType.IDENTIFIER then
      pure
        (match envGet env t.value with
         | some v => v
         | none =>
           if t.value = kwTRUE.roman || t.value = kwTRUE.devanagari then
             Value.bool true
           else if t.value = kwFALSE.roman ||
               t.value = kwFALSE.devanagari then
             Value.bool false
           else if t.value = kwNULL.roman || t.value = kwNULL.devanagari then
             Value.null
           else Value.num 0)
    else reduceLoopE env [t] 1 (getPrimitiveValue env (some t)) 1
  | t0 :: t1 :: rest =>
    reduceLoopE env (t0 :: t1 :: rest) (t0 :: t1 :: rest).length
      (getPrimitiveValue env (some t0)) 1

def interpLoopE (tokens : List Token) :
    Nat → Nat → InterpState → Except String InterpState
  | 0, _, st => pure st
  | fuel + 1, i, st =>
    if i < tokens.length then do
      let token ← atE tokens i
      if isValueVal token.value &&
          ((tokens[i + 2]?).map Token.value == some "=") then
        let id := (((tokens[i + 1]?).map Token.value)).getD "undefined"
        let exprTokens := sameLineSpan tokens (i + 3) token.line
        let v ← evaluateExpressionE st.vars exprTokens
        let st1 := pushSnapshot { st with vars := envSet st.vars id v }
          token.line
        interpLoopE tokens fuel (i + 3 + exprTokens.length) st1
      else if isPrintVal token.value then
        let exprTokens := sameLineSpan tokens (i + 1) token.line
        let v ← evaluateExpressionE st.vars exprTokens
        let st1 := pushSnapshot
          { st with stdout := st.stdout ++ [jsToString v] } token.line
        interpLoopE tokens fuel (i + 1 + exprTokens.length) st1
      else if isIfVal token.value then
        let condTokens := (tokens.drop (i + 1)).takeWhile
          (fun t => !isThenVal t.value)
        let j := i + 1 + condTokens.length
        let cond ← evaluateExpressionE st.vars condTokens
        let st1 := pushSnapshot st token.line
        if jsTruthy cond then
          interpLoopE tokens fuel (j + 1) st1
        else
          interpLoopE tokens fuel (j + 1 + skipScanL (tokens.drop (j + 1)) 1)
            st1
      else if isEndVal token.value then
        interpLoopE tokens fuel (i + 1) (pushSnapshot st token.line)
      else if token.type = TokenType.IDENTIFIER &&
          ((tokens[i + 1]?).map Token.value == some "=") then
        let exprTokens := sameLineSpan tokens (i + 2) token.line
        let v ← evaluateExpressionE st.vars exprTokens
        let st1 := pushSnapshot
          { st with vars := envSet st.vars token.value v } token.line
        interpLoopE tokens fuel (i + 2 + exprTokens.length) st1
      else
        interpLoopE tokens fuel (i + 1) st
    else pure st

def executeE (code : String) (mode : ScriptMode) : Except String CodeOutput :=
  if ((tokenize code).2).length > 0 then
    pure ⟨"", "Syntax errors detected.", "", [], (tokenize code).2, none⟩
  else do
    let st ← interpLoopE (tokenize code).1 (((tokenize code).1).length + 1) 0
      ⟨[], [], []⟩
    pure ⟨joinLines st.stdout,
      "Local SPL Engine executed the code successfully. Semantic connections verified.",
      generateCppLines code,
      ((tokenize code).1).map (fun t => (t.value, typeName t.type)),
      (tokenize code).2,
      some st.trace⟩

/-! ## Code generator of `src/unnamed/part_003` (`generateCpp`, lines
300–429): a token-stream pass with an `indentLevel` counter.  `getIndent`
calls `"  ".repeat(indentLevel)`, which throws a RangeError in JS when the
level has been driven negative by surplus END tokens, so the pass is
modelled in `Except`. -/

/-- `getKeywordType`: the first table entry (object order) matching either
surface form, as semantic-role key. -/
def getKeywordType (val : String) : Option String :=
  (KEYWORDS.find? (fun kv => kv.2.roman = val || kv.2.devanagari = val)).map
    Prod.fst

def indentStr : Nat → String
  | 0 => ""
  | n + 1 => indentStr n ++ "  "

/-- `"  ".repeat(indentLevel)`; RangeError on a negative count. -/
def getIndentE (lvl : Int) : Except String String :=
  if lvl < 0 then Except.error "RangeError: Invalid count value"
  else Except.ok (indentStr lvl.toNat)

def jsTrimEnd (s : String) : String :=
  charsToString ((s.data.reverse.dropWhile jsWhitespace).reverse)

/-- The PRINT-case lookahead loop: collect the rest of the line (stopping
early at a THEN/END keyword), mapping TRUE/FALSE/NULL and re-quoting
strings; returns the emitted text and the number of tokens consumed
(the source's final `j` minus the starting one).  Structural fuel as in
the other loops. -/
def printScan (tokens : List Token) : Nat → Nat → Nat → String →
    String × Nat
  | 0, _, _, acc => (acc, 0)
  | fuel + 1, j, line, acc =>
    match tokens[j]? with
    | none => (acc, 0)
    | some tj =>
      if tj.line ≠ line then (acc, 0)
      else
        let innerType := getKeywordType tj.value
        if innerType = some "THEN" || innerType = some "END" then (acc, 0)
        else
          let piece :=
            if innerType = some "TRUE" then "true"
            else if innerType = some "FALSE" then "false"
            else if innerType = some "NULL" then "nullptr"
            else if tj.type = TokenType.STRING then "\"" ++ tj.value ++ "\""
            else tj.value
          let acc1 := acc ++ piece
          let acc2 :=
            if (tokens[j + 1]?).map Token.line = some line then acc1 ++ " "
            else acc1
          let r := printScan tokens fuel (j + 1) line acc2
          (r.1, r.2 + 1)

/-- The body of one iteration's `switch (type)` (the literal `case` labels
are rendered as an if-chain on the role key): returns the grown buffer, how
far the loop index advanced inside the switch (0 for most cases; the PRINT
case sets `i = j - 1`, i.e. advances by the number of consumed lookahead
tokens; FUNCTION does `i++`), and the new indent level. -/
def genSwitch (tokens : List Token) (i : Nat) (token : Token) (cpp : String)
    (lvl : Int) : Except String (String × Nat × Int) :=
  let ty := getKeywordType token.value
  if ty = some "VALUE" then Except.ok (cpp ++ "auto ", 0, lvl)
  else if ty = some "PRINT" then
    let p := printScan tokens (tokens.length + 1) (i + 1) token.line ""
    Except.ok (cpp ++ "san::vadatu(" ++ p.1 ++ ");", p.2, lvl)
  else if ty = some "IF" then Except.ok (cpp ++ "if (", 0, lvl)
  else if ty = some "WHILE" then Except.ok (cpp ++ "while (", 0, lvl)
  else if ty = some "FOR" then Except.ok (cpp ++ "for (", 0, lvl)
  else if ty = some "FUNCTION" then
    let funcName := ((tokens[i + 1]?).map Token.value).getD "undefined"
    Except.ok (cpp ++ "auto " ++ funcName ++ " = [&](", 1, lvl)
  else if ty = some "THEN" then Except.ok (cpp ++ ") \x7b", 0, lvl + 1)
  else if ty = some "ELSE" then
    (getIndentE (lvl - 1)).map (fun ind =>
      (jsTrimEnd cpp ++ "\n" ++ ind ++ "\x7d else \x7b", 0, lvl))
  else if ty = some "END" then
    (getIndentE (lvl - 1)).map (fun ind =>
      (jsTrimEnd cpp ++ "\n" ++ ind ++ "\x7d", 0, lvl - 1))
  else if ty = some "RETURN" then Except.ok (cpp ++ "return ", 0, lvl)
  else if ty = some "BREAK" then Except.ok (cpp ++ "break;", 0, lvl)
  else if ty = some "CONTINUE" then Except.ok (cpp ++ "continue;", 0, lvl)
  else if ty = some "TRUE" then Except.ok (cpp ++ "true", 0, lvl)
  else if ty = some "FALSE" then Except.ok (cpp ++ "false", 0, lvl)
  else if ty = some "NULL" then Except.ok (cpp ++ "nullptr", 0, lvl)
  else if token.type = TokenType.STRING then
    Except.ok (cpp ++ "\"" ++ token.value ++ "\"", 0, lvl)
  else Except.ok (cpp ++ token.value, 0, lvl)

/-- The role keys excluded from the appended-semicolon rule. -/
def noSemiKeys : List String :=
  ["THEN", "END", "IF", "WHILE", "FOR", "ELSE", "PRINT"]

/-- The main `while (i < this.tokens.length)` loop of `generateCpp`, with
structural fuel (the wrapper passes one more than the token count). -/
def genLoop (tokens : List Token) : Nat → Nat → String → Int →
    Except String (String × Int)
  | 0, _, cpp, lvl => Except.ok (cpp, lvl)
  | fuel + 1, i, cpp, lvl =>
    match tokens[i]? with
    | none => Except.ok (cpp, lvl)
    | some token =>
      let headStep : Except String String :=
        if i = 0 || ((tokens[i - 1]?).map Token.line != some token.line) then
          (getIndentE lvl).map (fun ind => cpp ++ ind)
        else Except.ok cpp
      match headStep with
      | Except.error e => Except.error e
      | Except.ok cpp1 =>
        match genSwitch tokens i token cpp1 lvl with
        | Except.error e => Except.error e
        | Except.ok (cpp2, adv, lvl2) =>
          let iNext := i + adv
          let ty := getKeywordType token.value
          let nextLine := (tokens[iNext + 1]?).map Token.line
          let isEOL := nextLine = none || nextLine ≠ some token.line
          let cpp3 :=
            if isEOL &&
                !((ty.map noSemiKeys.contains).getD false) &&
                !strEndsWith cpp2 ";" && !strEndsWith cpp2 "\x7b" &&
                !strEndsWith cpp2 "\x7d"
            then cpp2 ++ ";" else cpp2
          let cpp4 :=
            if isEOL then cpp3 ++ "\n"
            else if !strEndsWith cpp3 "(" && !strEndsWith cpp3 "[" then
              cpp3 ++ " "
            else cpp3
          genLoop tokens fuel (iNext + 1) cpp4 lvl2

def cppHeader3 : String :=
  "#include \"Sanskritam.h\"\n#include <vector>\n#include <string>\n#include <functional>\n\nint main() \x7b\n"

/-- The trailing `while (indentLevel > 1)` close-out: a closing brace per
still-open level, each on its own line at its own indent. -/
def closeIndents : Nat → String
  | 0 => ""
  | 1 => ""
  | n + 2 => indentStr (n + 1) ++ "\x7d\n" ++ closeIndents (n + 1)

/-- `generateCpp` of part_003: main loop, then, only when `indentLevel > 0`,
close the open levels and append the trailing return. -/
def generateCpp3 (tokens : List Token) : Except String String := do
  let r ← genLoop tokens (tokens.length + 1) 0 cppHeader3 1
  if 0 < r.2 then
    pure (r.1 ++ closeIndents r.2.toNat ++ "  return 0;\n\x7d")
  else
    pure r.1

/-! ## Claim theorems -/

theorem tokenizeLoop_identifier_not_keyword (fuel : Nat) (cs : List Char)
    (line col : Nat) :
    ∀ t ∈ (tokenizeLoop fuel cs line col).1,
      t.type = TokenType.IDENTIFIER → isKeywordVal t.value = false := by
  induction fuel, cs, line, col using tokenizeLoop.induct
  all_goals intro t ht hty
  all_goals rw [tokenizeLoop] at ht
  all_goals try simp_all
  all_goals try (split at ht)
  all_goals try simp_all
  all_goals try (split at ht)
  all_goals try simp_all
  all_goals try (rcases ht with rfl | ht)
  all_goals try simp_all
  all_goals try (rw [← List.drop_one] at ht; solve_by_elim)

/-- C2: when tokenize records at least one lexical error, `execute` returns
immediately: empty stdout, empty generated source, empty token list, the
collected errors, no debug trace, and an untouched (empty) Environment. -/
theorem lexical_errors_short_circuit (code : String) (mode : ScriptMode)
    (h : (tokenize code).2 ≠ []) :
    executeFull code mode =
      ⟨⟨"", "Syntax errors detected.", "", [], (tokenize code).2, none⟩,
       []⟩ := by
  have hl : ((tokenize code).2).length > 0 := List.length_pos.mpr h
  unfold executeFull
  simp [hl]

theorem lexical_errors_short_circuit_witness :
    (tokenize "@").2 ≠ [] ∧
      executeFull "@" ScriptMode.ROMAN =
        ⟨⟨"", "Syntax errors detected.", "", [], (tokenize "@").2, none⟩,
         []⟩ :=
  ⟨by decide, lexical_errors_short_circuit "@" ScriptMode.ROMAN (by decide)⟩

/-- C9: the lexer classifies every word whose text equals a keyword surface
form (the TRUE/FALSE/NULL forms satyam/asatyam/shunyam and their Devanagari
spellings included) as a KEYWORD token, never IDENTIFIER; since the
evaluator's true/false/null fallback fires only on IDENTIFIER tokens, it is
unreachable on lexer output, and a TRUE/FALSE/NULL keyword in expression
position contributes primitive value 0 — `mulyam b = satyam` binds b to 0,
not boolean true. -/
theorem keyword_fallback_unreachable :
    (∀ (s : String) (t : Token), t ∈ (tokenize s).1 →
        t.type = TokenType.IDENTIFIER → isKeywordVal t.value = false) ∧
    (isKeywordVal kwTRUE.roman ∧ isKeywordVal kwTRUE.devanagari ∧
     isKeywordVal kwFALSE.roman ∧ isKeywordVal kwFALSE.devanagari ∧
     isKeywordVal kwNULL.roman ∧ isKeywordVal kwNULL.devanagari) ∧
    (∀ (env : List (String × Value)) (t : Token),
        t.type = TokenType.KEYWORD →
        getPrimitiveValue env (some t) = Value.num 0 ∧
        evaluateExpression env [t] = Value.num 0) ∧
    (executeFull "mulyam b = satyam" ScriptMode.ROMAN).finalVars =
      [("b", Value.num 0)] ∧
    Value.num 0 ≠ Value.bool true := by
  refine ⟨?_, by decide, ?_, by decide, by decide⟩
  · intro s t ht hty
    exact tokenizeLoop_identifier_not_keyword s.data.length s.data 1 1 t ht hty
  · intro env t hty
    constructor
    · simp [getPrimitiveValue, hty]
    · simp [evaluateExpression, reduceLoop, getPrimitiveValue, hty]

theorem keyword_fallback_unreachable_witness :
    ((⟨TokenType.IDENTIFIER, "x", 1, 8⟩ : Token) ∈ (tokenize "satyam x").1 ∧
      isKeywordVal "x" = false) ∧
    evaluateExpression [] [⟨TokenType.KEYWORD, "satyam", 1, 1⟩] =
      Value.num 0 :=
  ⟨⟨by decide,
    keyword_fallback_unreachable.1 "satyam x"
      ⟨TokenType.IDENTIFIER, "x", 1, 8⟩ (by decide) rfl⟩,
   (keyword_fallback_unreachable.2.2.1 []
      ⟨TokenType.KEYWORD, "satyam", 1, 1⟩ rfl).2⟩

/-- C10: an (operator, operand) pair whose operator text is outside the set
of nine handled operators leaves the running result unchanged; the lexer
does tokenize %, !=, & and | as OPERATOR tokens, and the span 7 % 2
evaluates to 7. -/
theorem unknown_operator_preserves_result :
    (∀ (op : String) (res next : Value),
        op ∉ (["+", "-", "*", "/", "==", "<", ">", "<=", ">="] :
          List String) →
        applyOp op res next = res) ∧
    evaluateExpression []
      [⟨TokenType.NUMBER, "7", 1, 1⟩, ⟨TokenType.OPERATOR, "%", 1, 3⟩,
       ⟨TokenType.NUMBER, "2", 1, 5⟩] = Value.num 7 ∧
    ((tokenize "7 % 2").1).map (fun t => (t.type, t.value)) =
      [(TokenType.NUMBER, "7"), (TokenType.OPERATOR, "%"),
       (TokenType.NUMBER, "2")] ∧
    ((tokenize "a != b & c | d").1.filter
        (fun t => t.type = TokenType.OPERATOR)).map Token.value =
      ["!=", "&", "|"] := by
  refine ⟨?_, by decide, by decide, by decide⟩
  intro op res next hop
  simp only [List.mem_cons, List.not_mem_nil, or_false, not_or] at hop
  obtain ⟨h1, h2, h3, h4, h5, h6, h7, h8, h9⟩ := hop
  simp [applyOp, h1, h2, h3, h4, h5, h6, h7, h8, h9]

theorem unknown_operator_preserves_result_witness :
    ("%" ∉ (["+", "-", "*", "/", "==", "<", ">", "<=", ">="] :
      List String)) ∧
      applyOp "%" (Value.num 7) (Value.num 2) = Value.num 7 :=
  ⟨by decide,
   unknown_operator_preserves_result.1 "%" (Value.num 7) (Value.num 2)
     (by decide)⟩

/-! ## Claim C5: the multi-token reduction versus the spec's pair fold -/

/-- Flatten (operator, operand) pairs into the token span they occupy. -/
def pairList : List (Token × Token) → List Token
  | [] => []
  | (o, a) :: ps => o :: a :: pairList ps

/-- Modelled from the spec's words (§4.2): "begin with the primitive value
of token 0, then repeatedly take the next two tokens as (operator,
operand), apply it to the running result" — a left fold over the complete
pairs, for comparison with the code's reduction. -/
def specFold (env : List (String × Value)) (v : Value)
    (ps : List (Token × Token)) : Value :=
  ps.foldl
    (fun r p => applyOp p.1.value r (getPrimitiveValue env (some p.2))) v

theorem pairList_length (ps : List (Token × Token)) :
    (pairList ps).length = 2 * ps.length := by
  induction ps with
  | nil => rfl
  | cons p ps ih => cases p; simp [pairList, ih]; omega

theorem drop_cons_split {α : Type} {l : List α} {i : Nat} {x : α}
    {r : List α} (h : l.drop i = x :: r) :
    l[i]? = some x ∧ l.drop (i + 1) = r := by
  induction i generalizing l with
  | zero => cases l <;> simp_all
  | succ i ih =>
    cases l with
    | nil => simp_all
    | cons a l =>
      simp only [List.drop_succ_cons] at h
      simpa using ih h

theorem reduceLoop_stop (env : List (String × Value)) (tokens : List Token)
    (fuel : Nat) (res : Value) (i : Nat) (h : ¬ i < tokens.length) :
    reduceLoop env tokens fuel res i = res := by
  cases fuel <;> simp [reduceLoop, h]

theorem reduceLoop_pairs (env : List (String × Value)) (full : List Token)
    (ps : List (Token × Token)) :
    ∀ (fuel i : Nat) (res : Value), full.drop i = pairList ps →
      ps.length ≤ fuel →
      reduceLoop env full fuel res i = specFold env res ps := by
  induction ps with
  | nil =>
    intro fuel i res hdrop hfuel
    have hlen := congrArg List.length hdrop
    simp [List.length_drop, pairList] at hlen
    have hstop : ¬ i < full.length := by omega
    simp [reduceLoop_stop env full fuel res i hstop, specFold]
  | cons p ps ih =>
    intro fuel i res hdrop hfuel
    cases p with
    | mk o a =>
      simp only [pairList] at hdrop
      obtain ⟨hio, hdrop1⟩ := drop_cons_split hdrop
      obtain ⟨hia, hdrop2⟩ := drop_cons_split hdrop1
      have hlen := congrArg List.length hdrop
      simp [List.length_drop, pairList] at hlen
      have hi : i < full.length := by omega
      cases fuel with
      | zero => simp at hfuel
      | succ fuel =>
        rw [reduceLoop]
        simp only [hi, if_pos, hio, hia, Option.getD_some]
        rw [ih fuel (i + 2) _ hdrop2 (by simp at hfuel; omega)]
        simp [specFold]

theorem reduceLoop_pairs_trailing (env : List (String × Value))
    (full : List Token) (opT : Token) (ps : List (Token × Token)) :
    ∀ (fuel i : Nat) (res : Value),
      full.drop i = pairList ps ++ [opT] → ps.length + 1 ≤ fuel →
      reduceLoop env full fuel res i =
        applyOp opT.value (specFold env res ps) (Value.num 0) := by
  induction ps with
  | nil =>
    intro fuel i res hdrop hfuel
    simp only [pairList, List.nil_append] at hdrop
    obtain ⟨hio, hdrop1⟩ := drop_cons_split hdrop
    have hlen := congrArg List.length hdrop
    simp [List.length_drop] at hlen
    have hi : i < full.length := by omega
    have hnone : full[i + 1]? = none := by
      apply List.getElem?_eq_none
      omega
    cases fuel with
    | zero => simp at hfuel
    | succ fuel =>
      rw [reduceLoop]
      simp only [hi, if_pos, hio, Option.getD_some, hnone]
      rw [reduceLoop_stop env full fuel _ (i + 2) (by omega)]
      simp [specFold, getPrimitiveValue]
  | cons p ps ih =>
    intro fuel i res hdrop hfuel
    cases p with
    | mk o a =>
      simp only [pairList, List.cons_append] at hdrop
      obtain ⟨hio, hdrop1⟩ := drop_cons_split hdrop
      obtain ⟨hia, hdrop2⟩ := drop_cons_split hdrop1
      have hlen := congrArg List.length hdrop
      simp [List.length_drop, pairList] at hlen
      have hi : i < full.length := by omega
      cases fuel with
      | zero => simp at hfuel
      | succ fuel =>
        rw [reduceLoop]
        simp only [hi, if_pos, hio, hia, Option.getD_some]
        rw [ih fuel (i + 2) _ (by simpa using hdrop2) (by simp at hfuel; omega)]
        simp [specFold]

theorem evaluateExpression_cons_cons (env : List (String × Value))
    (t0 t1 : Token) (rest : List Token) :
    evaluateExpression env (t0 :: t1 :: rest) =
      reduceLoop env (t0 :: t1 :: rest) (t0 :: t1 :: rest).length
        (getPrimitiveValue env (some t0)) 1 := rfl

/-- C5 counterexample: on the even-length span `2 *` (length ≥ 2, one
source line) the evaluator returns 0 — the trailing operator is applied
with the absent operand read as numeric 0 — whereas the claimed
left-to-right fold over the complete (operator, operand) pairs of that
span (there are none) stays at the primitive value 2 of token 0. -/
theorem fold_claim_counterexample :
    evaluateExpression []
      [⟨TokenType.NUMBER, "2", 1, 1⟩, ⟨TokenType.OPERATOR, "*", 1, 3⟩] =
      Value.num 0 ∧
    specFold []
      (getPrimitiveValue [] (some ⟨TokenType.NUMBER, "2", 1, 1⟩)) [] =
      Value.num 2 ∧
    (Value.num 0 : Value) ≠ Value.num 2 :=
  ⟨by decide, by decide, by decide⟩

/-- C5 (amended): a span consisting of token 0 followed by complete
(operator, operand) pairs evaluates to exactly the spec's left-to-right
no-precedence fold — in particular 2 + 3 * 4 evaluates to 20, not 14 —
while a span with a trailing unpaired operator token (an even-length
span) additionally applies that trailing operator with the absent operand
read as numeric 0. -/
theorem evaluator_left_fold (env : List (String × Value)) (t0 opT : Token)
    (ps : List (Token × Token)) :
    (ps ≠ [] →
      evaluateExpression env (t0 :: pairList ps) =
        specFold env (getPrimitiveValue env (some t0)) ps) ∧
    evaluateExpression env (t0 :: (pairList ps ++ [opT])) =
      applyOp opT.value (specFold env (getPrimitiveValue env (some t0)) ps)
        (Value.num 0) ∧
    evaluateExpression []
      [⟨TokenType.NUMBER, "2", 1, 1⟩, ⟨TokenType.OPERATOR, "+", 1, 3⟩,
       ⟨TokenType.NUMBER, "3", 1, 5⟩, ⟨TokenType.OPERATOR, "*", 1, 7⟩,
       ⟨TokenType.NUMBER, "4", 1, 9⟩] = Value.num 20 ∧
    Value.num 20 ≠ Value.num 14 := by
  refine ⟨?_, ?_, by decide, by decide⟩
  · intro hne
    rcases ps with _ | ⟨⟨o, a⟩, ps⟩
    · exact absurd rfl hne
    · rw [pairList, evaluateExpression_cons_cons]
      apply reduceLoop_pairs
      · simp [pairList]
      · simp only [List.length_cons, pairList_length]
        omega
  · rcases ps with _ | ⟨⟨o, a⟩, ps⟩
    · rw [pairList, List.nil_append, evaluateExpression_cons_cons]
      apply reduceLoop_pairs_trailing
      · simp [pairList]
      · simp
    · rw [pairList, List.cons_append, List.cons_append,
        evaluateExpression_cons_cons]
      apply reduceLoop_pairs_trailing
      · simp [pairList]
      · simp only [List.length_cons, List.length_append, pairList_length]
        omega

theorem evaluator_left_fold_witness :
    evaluateExpression []
      [⟨TokenType.NUMBER, "5", 1, 1⟩, ⟨TokenType.OPERATOR, "-", 1, 3⟩,
       ⟨TokenType.NUMBER, "2", 1, 5⟩] =
      specFold []
        (getPrimitiveValue [] (some ⟨TokenType.NUMBER, "5", 1, 1⟩))
        [(⟨TokenType.OPERATOR, "-", 1, 3⟩, ⟨TokenType.NUMBER, "2", 1, 5⟩)] :=
  (evaluator_left_fold [] ⟨TokenType.NUMBER, "5", 1, 1⟩
      ⟨TokenType.OPERATOR, "+", 9, 9⟩
      [(⟨TokenType.OPERATOR, "-", 1, 3⟩, ⟨TokenType.NUMBER, "2", 1, 5⟩)]).1
    (by decide)

/-! ## Claim C1: declaration statements -/

theorem runInterp_single_decl (kw idT eqT lit : Token)
    (hkw : isValueVal kw.value = true) (heq : eqT.value = "=")
    (hline : lit.line = kw.line) :
    runInterp [kw, idT, eqT, lit] =
      ⟨[(idT.value, evaluateExpression [] [lit])], [],
       [⟨kw.line, [(idT.value, evaluateExpression [] [lit])], ""⟩]⟩ := by
  unfold runInterp
  simp [interpLoop, sameLineSpan, pushSnapshot, envSet, joinLines, hkw, heq,
    hline]

/-- C1 counterexample: executing the declaration `mulyam b = shunyam`
(literal = the NULL keyword form) leaves the Environment mapping b to
numeric 0, not to the null value the claim's "literal's value" demands. -/
theorem declaration_binds_literal_counterexample :
    envGet (executeFull "mulyam b = shunyam" ScriptMode.ROMAN).finalVars
      "b" = some (Value.num 0) ∧
    Value.num 0 ≠ Value.null :=
  ⟨by decide, by decide⟩

/-- C1 (amended): for a lexer-shaped declaration statement
`VALUE id = <literal>` run on its own (the four tokens, literal on the
declaration's line), after the run the Environment maps the identifier to
the literal's value when the literal is a Number or String token, and the
debug trace contains a snapshot at the declaration's line whose variables
snapshot maps the identifier to that same value; a TRUE/FALSE/NULL
keyword-form literal is a KEYWORD token, bypasses the evaluator's
boolean/null fallback, and binds numeric 0 instead (with the same
snapshot shape). -/
theorem declaration_binds_literal (kw idT eqT lit : Token)
    (hkw : isValueVal kw.value = true) (heq : eqT.value = "=")
    (hline : lit.line = kw.line) :
    ((lit.type = TokenType.NUMBER →
       envGet (runInterp [kw, idT, eqT, lit]).vars idT.value =
         some (Value.num (parseFloatQ lit.value)) ∧
       ∃ snap ∈ (runInterp [kw, idT, eqT, lit]).trace,
         snap.line = kw.line ∧
         envGet snap.vars idT.value =
           some (Value.num (parseFloatQ lit.value))) ∧
     (lit.type = TokenType.STRING →
       envGet (runInterp [kw, idT, eqT, lit]).vars idT.value =
         some (Value.str lit.value) ∧
       ∃ snap ∈ (runInterp [kw, idT, eqT, lit]).trace,
         snap.line = kw.line ∧
         envGet snap.vars idT.value = some (Value.str lit.value))) ∧
    (lit.type = TokenType.KEYWORD →
      envGet (runInterp [kw, idT, eqT, lit]).vars idT.value =
        some (Value.num 0) ∧
      ∃ snap ∈ (runInterp [kw, idT, eqT, lit]).trace,
        snap.line = kw.line ∧
        envGet snap.vars idT.value = some (Value.num 0)) := by
  rw [runInterp_single_decl kw idT eqT lit hkw heq hline]
  refine ⟨⟨?_, ?_⟩, ?_⟩ <;> intro hty <;>
    simp [evaluateExpression, reduceLoop, getPrimitiveValue, envGet, hty]

theorem declaration_binds_literal_witness :
    envGet
      (runInterp
        [⟨TokenType.KEYWORD, "mulyam", 1, 1⟩,
         ⟨TokenType.IDENTIFIER, "x", 1, 8⟩,
         ⟨TokenType.OPERATOR, "=", 1, 10⟩,
         ⟨TokenType.NUMBER, "10", 1, 12⟩]).vars "x" =
      some (Value.num (parseFloatQ "10")) ∧
    ∃ snap ∈
      (runInterp
        [⟨TokenType.KEYWORD, "mulyam", 1, 1⟩,
         ⟨TokenType.IDENTIFIER, "x", 1, 8⟩,
         ⟨TokenType.OPERATOR, "=", 1, 10⟩,
         ⟨TokenType.NUMBER, "10", 1, 12⟩]).trace,
      snap.line = 1 ∧ envGet snap.vars "x" = some (Value.num (parseFloatQ "10")) :=
  (declaration_binds_literal
    ⟨TokenType.KEYWORD, "mulyam", 1, 1⟩ ⟨TokenType.IDENTIFIER, "x", 1, 8⟩
    ⟨TokenType.OPERATOR, "=", 1, 10⟩ ⟨TokenType.NUMBER, "10", 1, 12⟩
    (by decide) rfl rfl).1.1 rfl

/-! ## Claim C3: falsy conditionals skip their block -/

/-- Depth change of the skip scan across one token (both `if`s of the
source body apply to the same token). -/
def nextDepth (d : Nat) (t : Token) : Nat :=
  (if isIfVal t.value then d + 1 else d) - (if isEndVal t.value then 1 else 0)

/-- The block body is balanced for a skip scan entered at depth `d`: the
depth stays at least 1 after every body token and is exactly 1 at the end
(so the END token that follows takes it to 0). -/
def depthsOk : Nat → List Token → Bool
  | d, [] => d == 1
  | d, t :: ts => (1 ≤ nextDepth d t) && depthsOk (nextDepth d t) ts

theorem skipScan_balanced (endT : Token) (hEnd : isEndVal endT.value = true)
    (hEndNotIf : isIfVal endT.value = false) :
    ∀ (body : List Token) (rest : List Token) (d : Nat), 1 ≤ d →
      depthsOk d body = true →
      skipScanL (body ++ endT :: rest) d = body.length + 1 := by
  intro body
  induction body with
  | nil =>
    intro rest d hd hok
    simp [depthsOk] at hok
    subst hok
    simp [skipScanL, hEnd, hEndNotIf]
  | cons t ts ih =>
    intro rest d hd hok
    simp only [depthsOk, Bool.and_eq_true, decide_eq_true_eq] at hok
    obtain ⟨h1, h2⟩ := hok
    obtain ⟨dd, rfl⟩ : ∃ dd, d = dd + 1 := ⟨d - 1, by omega⟩
    show skipScanL (t :: (ts ++ endT :: rest)) (dd + 1) = ts.length + 1 + 1
    rw [skipScanL]
    have hnd : ((if isIfVal t.value then dd + 2 else dd + 1) -
        if isEndVal t.value then 1 else 0) = nextDepth (dd + 1) t := rfl
    simp only [hnd]
    rw [ih rest (nextDepth (dd + 1) t) h1 h2]

theorem ifVal_not_value {v : String} (h : isIfVal v = true) :
    isValueVal v = false := by
  simp [isIfVal, kwIF] at h
  rcases h with rfl | rfl <;> decide

theorem ifVal_not_print {v : String} (h : isIfVal v = true) :
    isPrintVal v = false := by
  simp [isIfVal, kwIF] at h
  rcases h with rfl | rfl <;> decide

theorem endVal_not_if {v : String} (h : isEndVal v = true) :
    isIfVal v = false := by
  simp [isEndVal, kwEND] at h
  rcases h with rfl | rfl <;> decide

theorem getElem?_append_len {α : Type} (l₁ l₂ : List α) :
    (l₁ ++ l₂)[l₁.length]? = l₂[0]? := by
  induction l₁ <;> simp_all

theorem drop_append_cons {α : Type} (l₁ : List α) (x : α) (l₂ : List α) :
    (l₁ ++ x :: l₂).drop (l₁.length + 1) = l₂ := by
  induction l₁ <;> simp_all

theorem takeWhile_append_stop {α : Type} (p : α → Bool) (l₁ : List α)
    (x : α) (l₂ : List α) (h : ∀ a ∈ l₁, p a = true) (hx : p x = false) :
    (l₁ ++ x :: l₂).takeWhile p = l₁ := by
  induction l₁ with
  | nil => simp [List.takeWhile_cons, hx]
  | cons a l ih =>
    simp only [List.cons_append, List.takeWhile_cons]
    rw [h a (by simp)]
    simp [ih (fun b hb => h b (by simp [hb]))]

/-- C3: when the interpreter meets `IF <cond> THEN <body> END` and the
condition evaluates to a falsy value, it appends only the one IF-line
snapshot and continues at the first token after the matching END — the
position found by the depth counter that starts at 1, increments on
nested IF keywords, decrements on END keywords and stops at 0 (the
`depthsOk` balance condition says the counter first returns to 0 at that
END) — so none of the body's statements touch stdout, the Environment or
the debug trace. -/
theorem if_falsy_skips_block
    (pre condToks body rest : List Token) (ifT thenT endT : Token)
    (st : InterpState) (fuel : Nat)
    (hIf : isIfVal ifT.value = true)
    (hThen : isThenVal thenT.value = true)
    (hcond : ∀ t ∈ condToks, isThenVal t.value = false)
    (hEnd : isEndVal endT.value = true)
    (hbal : depthsOk 1 body = true)
    (hfalsy : jsTruthy (evaluateExpression st.vars condToks) = false) :
    interpLoop (pre ++ ifT :: (condToks ++ thenT :: (body ++ endT :: rest)))
        (fuel + 1) pre.length st =
      interpLoop (pre ++ ifT :: (condToks ++ thenT :: (body ++ endT :: rest)))
        fuel (pre.length + 1 + condToks.length + 1 + body.length + 1)
        (pushSnapshot st ifT.line) := by
  set tokens := pre ++ ifT :: (condToks ++ thenT :: (body ++ endT :: rest))
    with htok
  have h0 : tokens[pre.length]? = some ifT := by
    rw [htok, getElem?_append_len]
    simp
  have hdropA : tokens.drop (pre.length + 1) =
      condToks ++ thenT :: (body ++ endT :: rest) := by
    rw [htok, drop_append_cons]
  have htake : (tokens.drop (pre.length + 1)).takeWhile
      (fun t => !isThenVal t.value) = condToks := by
    rw [hdropA]
    exact takeWhile_append_stop _ condToks thenT _
      (fun a ha => by simp [hcond a ha]) (by simp [hThen])
  have hdropB : tokens.drop (pre.length + 1 + condToks.length + 1) =
      body ++ endT :: rest := by
    have hre : tokens = (pre ++ ifT :: condToks) ++ thenT ::
        (body ++ endT :: rest) := by simp [htok]
    have hlen : pre.length + 1 + condToks.length =
        (pre ++ ifT :: condToks).length := by simp; omega
    rw [hre, hlen, drop_append_cons]
  have hskip : skipScanL (body ++ endT :: rest) 1 = body.length + 1 :=
    skipScan_balanced endT hEnd (endVal_not_if hEnd) body rest 1 le_rfl hbal
  conv_lhs => rw [interpLoop]
  rw [h0]
  simp only [ifVal_not_value hIf, ifVal_not_print hIf, hIf, Bool.false_and,
    Bool.true_and, if_true, if_false, Bool.false_eq_true, htake, hfalsy,
    hdropB, hskip]
  rw [show pre.length + 1 + condToks.length + 1 + (body.length + 1) =
      pre.length + 1 + condToks.length + 1 + body.length + 1 by omega]

theorem if_falsy_skips_block_witness :
    interpLoop
      [⟨TokenType.KEYWORD, "yadi", 1, 1⟩, ⟨TokenType.NUMBER, "0", 1, 6⟩,
       ⟨TokenType.KEYWORD, "tarhi", 1, 8⟩, ⟨TokenType.KEYWORD, "vadatu", 2, 1⟩,
       ⟨TokenType.NUMBER, "1", 2, 8⟩, ⟨TokenType.KEYWORD, "samaptam", 3, 1⟩,
       ⟨TokenType.KEYWORD, "vadatu", 4, 1⟩, ⟨TokenType.NUMBER, "2", 4, 8⟩]
      9 0 ⟨[], [], []⟩ =
    interpLoop
      [⟨TokenType.KEYWORD, "yadi", 1, 1⟩, ⟨TokenType.NUMBER, "0", 1, 6⟩,
       ⟨TokenType.KEYWORD, "tarhi", 1, 8⟩, ⟨TokenType.KEYWORD, "vadatu", 2, 1⟩,
       ⟨TokenType.NUMBER, "1", 2, 8⟩, ⟨TokenType.KEYWORD, "samaptam", 3, 1⟩,
       ⟨TokenType.KEYWORD, "vadatu", 4, 1⟩, ⟨TokenType.NUMBER, "2", 4, 8⟩]
      8 6 (pushSnapshot ⟨[], [], []⟩ 1) :=
  if_falsy_skips_block []
    [⟨TokenType.NUMBER, "0", 1, 6⟩]
    [⟨TokenType.KEYWORD, "vadatu", 2, 1⟩, ⟨TokenType.NUMBER, "1", 2, 8⟩]
    [⟨TokenType.KEYWORD, "vadatu", 4, 1⟩, ⟨TokenType.NUMBER, "2", 4, 8⟩]
    ⟨TokenType.KEYWORD, "yadi", 1, 1⟩ ⟨TokenType.KEYWORD, "tarhi", 1, 8⟩
    ⟨TokenType.KEYWORD, "samaptam", 3, 1⟩ ⟨[], [], []⟩ 8
    (by decide) (by decide) (by decide) (by decide) (by decide) (by decide)

/-! ## Claim C7: debug-trace stdout monotonicity -/

/-- String prefix order. -/
def StringPfx (a b : String) : Prop := ∃ t, a ++ t = b

theorem StringPfx.rfl (a : String) : StringPfx a a := ⟨"", by simp⟩

theorem StringPfx.trans {a b c : String} (h1 : StringPfx a b)
    (h2 : StringPfx b c) : StringPfx a c := by
  obtain ⟨t1, rfl⟩ := h1
  obtain ⟨t2, rfl⟩ := h2
  exact ⟨t1 ++ t2, by simp [String.append_assoc]⟩

theorem joinLines_snoc_pfx (l : List String) (s : String) :
    StringPfx (joinLines l) (joinLines (l ++ [s])) := by
  induction l with
  | nil => exact ⟨s, by simp [joinLines]⟩
  | cons x l ih =>
    cases l with
    | nil => exact ⟨"\n" ++ s, by simp [joinLines, String.append_assoc]⟩
    | cons y l =>
      obtain ⟨t, ht⟩ := ih
      refine ⟨t, ?_⟩
      simp only [joinLines, List.cons_append, String.append_assoc]
      rw [ht]
      rfl

theorem chain'_snoc2 {α : Type} {R : α → α → Prop} :
    ∀ (l : List α) (x y : α), List.Chain' R (l ++ [x]) → R x y →
      List.Chain' R (l ++ [x, y]) := by
  intro l
  induction l with
  | nil =>
    intro x y h hr
    simp [List.chain'_cons]
    exact hr
  | cons a l ih =>
    intro x y h hr
    rw [List.cons_append] at h ⊢
    rw [List.chain'_cons'] at h ⊢
    obtain ⟨hh, hc⟩ := h
    refine ⟨?_, ih x y hc hr⟩
    intro z hz
    apply hh
    cases l <;> simp_all

theorem chain'_grow_last {α : Type} {R : α → α → Prop} :
    ∀ (l : List α) (x y : α), List.Chain' R (l ++ [x]) →
      (∀ z, R z x → R z y) → List.Chain' R (l ++ [y]) := by
  intro l
  induction l with
  | nil => intro x y h hm; simp
  | cons a l ih =>
    intro x y h hm
    rw [List.cons_append] at h ⊢
    rw [List.chain'_cons'] at h ⊢
    obtain ⟨hh, hc⟩ := h
    refine ⟨?_, ih x y hc hm⟩
    intro z hz
    cases l with
    | nil =>
      simp at hz
      subst hz
      exact hm a (hh x (by simp))
    | cons b l => apply hh; simp_all

theorem chain'_adjacent {α : Type} {R : α → α → Prop} :
    ∀ (p l : List α) (x y : α) (q : List α), List.Chain' R l →
      l = p ++ x :: y :: q → R x y := by
  intro p
  induction p with
  | nil =>
    intro l x y q hc hl
    subst hl
    simp only [List.nil_append] at hc
    exact (List.chain'_cons.mp hc).1
  | cons a p ih =>
    intro l x y q hc hl
    subst hl
    apply ih (p ++ x :: y :: q) x y q ?_ rfl
    have := hc.tail
    simpa using this

/-- The stdout strings of the trace, capped by the joined current stdout,
form a prefix chain. -/
def stdoutChain (st : InterpState) : Prop :=
  List.Chain' StringPfx
    (st.trace.map DebugSnapshot.stdout ++ [joinLines st.stdout])

theorem stdoutChain_push (st : InterpState) (line : Nat)
    (h : stdoutChain st) : stdoutChain (pushSnapshot st line) := by
  unfold stdoutChain pushSnapshot at *
  simp only [List.map_append, List.map_cons, List.map_nil]
  have := chain'_snoc2 (st.trace.map DebugSnapshot.stdout)
    (joinLines st.stdout) (joinLines st.stdout) h (StringPfx.rfl _)
  simpa using this

theorem stdoutChain_vars (st : InterpState) (v : List (String × Value))
    (h : stdoutChain st) : stdoutChain { st with vars := v } := h

theorem stdoutChain_stdout (st : InterpState) (s : String)
    (h : stdoutChain st) :
    stdoutChain { st with stdout := st.stdout ++ [s] } := by
  unfold stdoutChain at *
  exact chain'_grow_last _ _ _ h
    (fun z hz => hz.trans (joinLines_snoc_pfx st.stdout s))

theorem interpLoop_chain (tokens : List Token) :
    ∀ (fuel i : Nat) (st : InterpState), stdoutChain st →
      stdoutChain (interpLoop tokens fuel i st) := by
  intro fuel
  induction fuel with
  | zero => intro i st h; exact h
  | succ fuel ih =>
    intro i st h
    rw [interpLoop]
    split
    · exact h
    · dsimp only
      repeat' split
      all_goals
        first
          | exact ih _ _ (stdoutChain_push _ _ (stdoutChain_vars _ _ h))
          | exact ih _ _ (stdoutChain_push _ _ (stdoutChain_stdout _ _ h))
          | exact ih _ _ (stdoutChain_push _ _ h)
          | exact ih _ _ h

/-- C7: along any execution's debug trace, each snapshot's cumulative
stdout is a prefix of (or equal to) the next snapshot's, so in particular
the cumulative-stdout length is non-decreasing along the trace. -/
theorem trace_stdout_monotone (code : String) (mode : ScriptMode)
    (pre : List DebugSnapshot) (a b : DebugSnapshot)
    (post : List DebugSnapshot)
    (h : ((executeFull code mode).output.debugTrace).getD [] =
      pre ++ a :: b :: post) :
    StringPfx a.stdout b.stdout ∧ a.stdout.length ≤ b.stdout.length := by
  have hmain : StringPfx a.stdout b.stdout := by
    by_cases herr : ((tokenize code).2).length > 0
    · simp [executeFull, herr] at h
    · simp only [executeFull, herr, if_neg, if_false] at h
      simp at h
      have hch := interpLoop_chain (tokenize code).1
        ((tokenize code).1.length + 1) 0 ⟨[], [], []⟩
        (by unfold stdoutChain joinLines; simp)
      refine chain'_adjacent (pre.map DebugSnapshot.stdout) _ a.stdout
        b.stdout
        (post.map DebugSnapshot.stdout ++
          [joinLines (runInterp (tokenize code).1).stdout]) hch ?_
      unfold runInterp at h ⊢
      rw [h]
      simp
  refine ⟨hmain, ?_⟩
  obtain ⟨t, ht⟩ := hmain
  rw [← ht]
  simp [String.length_append]

theorem trace_stdout_monotone_witness :
    StringPfx "1" "1\n2" ∧ ("1" : String).length ≤ ("1\n2" : String).length :=
  trace_stdout_monotone "vadatu 1\nvadatu 2" ScriptMode.ROMAN []
    ⟨1, [], "1"⟩ ⟨2, [], "1\n2"⟩ [] (by decide)

/-! ### Claim C4: evaluation never throws.  The `Except`-instrumented
mirrors (`reduceLoopE`, `evaluateExpressionE`, `interpLoopE`, `executeE`)
error at exactly the places JS could raise (a property read on
`undefined`); every one of them is shown to return `ok` of the pure
result, so no exception reaches `evaluateExpression`'s caller and none
propagates out of `execute` — the source's `catch (e) { return 0 }` at
splEngine.ts line 177 is dead code and the contract holds vacuously
strong: the reduction body itself cannot throw. -/

theorem bindE_ok {α β : Type} (a : α) (f : α → Except String β) :
    (Except.ok a >>= f) = f a := rfl

theorem atE_ok (l : List Token) (i : Nat) (h : i < l.length) :
    atE l i = Except.ok l[i] := by
  simp [atE, List.getElem?_eq_getElem h]

theorem reduceLoopE_ok (env : List (String × Value)) (tokens : List Token) :
    ∀ (fuel : Nat) (res : Value) (i : Nat),
      reduceLoopE env tokens fuel res i =
        Except.ok (reduceLoop env tokens fuel res i) := by
  intro fuel
  induction fuel with
  | zero => intro res i; rfl
  | succ fuel ih =>
    intro res i
    rw [reduceLoopE, reduceLoop]
    by_cases h : i < tokens.length
    · simp only [if_pos h, atE_ok tokens i h, bindE_ok,
        List.getElem?_eq_getElem h, Option.getD_some, ih]
    · simp only [if_neg h]; rfl

theorem evaluateExpressionE_ok (env : List (String × Value))
    (tokens : List Token) :
    evaluateExpressionE env tokens =
      Except.ok (evaluateExpression env tokens) := by
  match tokens with
  | [] => rfl
  | [t] =>
    rw [evaluateExpressionE, evaluateExpression]
    split_ifs <;> rfl
  | t0 :: t1 :: rest =>
    rw [evaluateExpressionE, evaluateExpression]
    exact reduceLoopE_ok env _ _ _ _

theorem interpLoopE_ok (tokens : List Token) :
    ∀ (fuel i : Nat) (st : InterpState),
      interpLoopE tokens fuel i st =
        Except.ok (interpLoop tokens fuel i st) := by
  intro fuel
  induction fuel with
  | zero => intro i st; rfl
  | succ fuel ih =>
    intro i st
    rw [interpLoopE, interpLoop]
    by_cases h : i < tokens.length
    · rw [List.getElem?_eq_getElem h, if_pos h, atE_ok tokens i h]
      dsimp only
      simp only [bindE_ok, evaluateExpressionE_ok, ih]
      split_ifs <;> rfl
    · have hnone : tokens[i]? = none := List.getElem?_eq_none (by omega)
      rw [hnone, if_neg h]
      rfl

theorem executeE_ok (code : String) (mode : ScriptMode) :
    executeE code mode = Except.ok (execute code mode) := by
  rw [executeE, execute, executeFull]
  by_cases h : ((tokenize code).2).length > 0
  · rw [if_pos h, if_pos h]
    rfl
  · rw [if_neg h]
    simp only [if_neg h, interpLoopE_ok, bindE_ok, runInterp]
    rfl

/-- C4: `evaluateExpression` is total and never throws to its caller, and
no exception propagates out of `execute`: the exception-instrumented
mirrors of the expression evaluator and of the whole engine always return
`ok` of the pure results, for every environment, token span, source string
and script mode. -/
theorem evaluation_never_throws :
    (∀ (env : List (String × Value)) (tokens : List Token),
        evaluateExpressionE env tokens =
          Except.ok (evaluateExpression env tokens)) ∧
    ∀ (code : String) (mode : ScriptMode),
      executeE code mode = Except.ok (execute code mode) :=
  ⟨evaluateExpressionE_ok, executeE_ok⟩

/-! ### Claim C6: Devanagari-digit normalisation in Number tokens.
`normChar` is the source's per-character `this.d2r[c] || c`; the lemmas
below show it commutes with every scan predicate of the lexer, that only
the Number branch consults it, and hence that the Number-token texts of a
source are invariant under the digit substitution (and are themselves
fixpoints of it: no Devanagari digit survives in a stored Number text,
since the table moves every one of them). -/

theorem normChar_eq_self (c : Char) (h : isDigitChar c = false) :
    normChar c = c := by
  unfold normChar d2rChar
  split <;> first | rfl | exact absurd h (by decide)

theorem normChar_digit (c : Char) :
    isDigitChar (normChar c) = isDigitChar c := by
  unfold normChar d2rChar
  split <;> rfl

theorem normChar_numCont (c : Char) :
    isNumCont (normChar c) = isNumCont c := by
  unfold normChar d2rChar
  split <;> rfl

theorem normChar_wordCont (c : Char) :
    isWordCont (normChar c) = isWordCont c := by
  unfold normChar d2rChar
  split <;> rfl

theorem normChar_ws (c : Char) :
    jsWhitespace (normChar c) = jsWhitespace c := by
  unfold normChar d2rChar
  split <;> rfl

theorem normChar_notQuote (c : Char) :
    notQuote (normChar c) = notQuote c := by
  unfold notQuote normChar d2rChar
  split <;> rfl

theorem normChar_notNewline (c : Char) :
    notNewline (normChar c) = notNewline c := by
  unfold notNewline normChar d2rChar
  split <;> rfl

theorem normChar_idem (c : Char) : normChar (normChar c) = normChar c := by
  cases hc : d2rChar c with
  | none => simp [normChar, hc]
  | some d =>
    have hd : normChar d = d := by
      unfold d2rChar at hc
      split at hc <;> cases hc <;> decide
    show (d2rChar ((d2rChar c).getD c)).getD ((d2rChar c).getD c) =
      (d2rChar c).getD c
    rw [hc]
    exact hd

theorem normChar_eq_lit (c x : Char) (hx : isDigitChar x = false) :
    normChar c = x ↔ c = x := by
  unfold normChar d2rChar
  split
  all_goals first
    | (constructor <;> (intro h; subst h; exact absurd hx (by decide)))
    | simp

theorem map_norm_idem (l : List Char) :
    (l.map normChar).map normChar = l.map normChar := by
  rw [List.map_map]
  congr 1
  funext x
  exact normChar_idem x

theorem takeWhile_map_norm (p : Char → Bool)
    (hp : ∀ c, p (normChar c) = p c) (l : List Char) :
    (l.map normChar).takeWhile p = (l.takeWhile p).map normChar := by
  have hfun : (p ∘ normChar) = p := funext hp
  rw [List.takeWhile_map, hfun]

theorem dropWhile_map_norm (p : Char → Bool)
    (hp : ∀ c, p (normChar c) = p c) (l : List Char) :
    (l.map normChar).dropWhile p = (l.dropWhile p).map normChar := by
  have hfun : (p ∘ normChar) = p := funext hp
  rw [List.dropWhile_map, hfun]

theorem headq_norm_lit (l : List Char) (x : Char)
    (hx : isDigitChar x = false) :
    (l.map normChar).head? = some x ↔ l.head? = some x := by
  cases l with
  | nil => simp
  | cons a l => simp [normChar_eq_lit a x hx]

def numProj (ts : List Token) : List String :=
  ts.filterMap
    (fun t => if t.type = TokenType.NUMBER then some t.value else none)

theorem numProj_cons_skip (t : Token) (ts : List Token)
    (h : ¬t.type = TokenType.NUMBER) : numProj (t :: ts) = numProj ts := by
  simp [numProj, List.filterMap_cons, h]

theorem numProj_cons_num (t : Token) (ts : List Token)
    (h : t.type = TokenType.NUMBER) :
    numProj (t :: ts) = t.value :: numProj ts := by
  simp [numProj, List.filterMap_cons, h]

theorem tokenizeLoop_norm :
    ∀ (fuel : Nat) (cs : List Char) (line col : Nat),
      numProj (tokenizeLoop fuel (cs.map normChar) line col).1 =
        numProj (tokenizeLoop fuel cs line col).1 := by
  intro fuel
  induction fuel with
  | zero => intro cs line col; cases cs <;> rfl
  | succ fuel ih =>
    intro cs line col
    cases cs with
    | nil => rfl
    | cons c rest =>
      rw [List.map_cons]
      rw [tokenizeLoop, tokenizeLoop]
      by_cases h1 : c = '\n'
      · rw [if_pos ((normChar_eq_lit c '\n' (by decide)).mpr h1), if_pos h1]
        exact ih rest (line + 1) 1
      rw [if_neg (fun hh => h1 ((normChar_eq_lit c '\n' (by decide)).mp hh)),
        if_neg h1]
      rw [normChar_ws c]
      by_cases h2 : jsWhitespace c = true
      · rw [if_pos h2, if_pos h2]
        exact ih rest line (col + 1)
      rw [if_neg h2, if_neg h2]
      rw [decide_eq_decide.mpr (normChar_eq_lit c '/' (by decide)),
        decide_eq_decide.mpr (headq_norm_lit rest '/' (by decide))]
      by_cases h3 : (decide (c = '/') && decide (rest.head? = some '/')) = true
      · rw [if_pos h3, if_pos h3]
        rw [dropWhile_map_norm notNewline normChar_notNewline]
        exact ih (rest.dropWhile notNewline) line col
      rw [if_neg h3, if_neg h3]
      by_cases h4 : c = '"'
      · rw [if_pos ((normChar_eq_lit c '"' (by decide)).mpr h4), if_pos h4]
        dsimp only
        rw [takeWhile_map_norm notQuote normChar_notQuote,
          dropWhile_map_norm notQuote normChar_notQuote,
          numProj_cons_skip _ _ (by simp),
          numProj_cons_skip _ _ (by simp),
          List.length_map]
        rw [show (((rest.dropWhile notQuote).map normChar).drop 1) =
          ((rest.dropWhile notQuote).drop 1).map normChar from
          Eq.symm (List.map_drop normChar _ 1)]
        exact ih _ line _
      rw [if_neg (fun hh => h4 ((normChar_eq_lit c '"' (by decide)).mp hh)),
        if_neg h4]
      rw [normChar_digit c]
      by_cases h5 : isDigitChar c = true
      · rw [if_pos h5, if_pos h5]
        dsimp only
        rw [show (normChar c :: rest.map normChar) = (c :: rest).map normChar
          from (List.map_cons normChar c rest).symm]
        rw [takeWhile_map_norm isNumCont normChar_numCont,
          dropWhile_map_norm isNumCont normChar_numCont,
          map_norm_idem,
          numProj_cons_num _ _ rfl,
          numProj_cons_num _ _ rfl,
          List.length_map]
        exact congrArg _ (ih _ line _)
      rw [if_neg h5, if_neg h5]
      have hnc : normChar c = c :=
        normChar_eq_self c (Bool.not_eq_true _ ▸ h5)
      rw [hnc]
      by_cases h6 : isAlphaChar c = true
      · rw [if_pos h6, if_pos h6]
        dsimp only
        rw [show (c :: rest.map normChar) = (c :: rest).map normChar from by
          rw [List.map_cons, hnc]]
        rw [takeWhile_map_norm isWordCont normChar_wordCont,
          dropWhile_map_norm isWordCont normChar_wordCont,
          numProj_cons_skip _ _ (by dsimp only; split <;> decide),
          numProj_cons_skip _ _ (by dsimp only; split <;> decide),
          List.length_map]
        exact ih _ line _
      rw [if_neg h6, if_neg h6]
      by_cases h7 : opStartChar c = true
      · rw [if_pos h7, if_pos h7]
        rw [decide_eq_decide.mpr (headq_norm_lit rest '=' (by decide))]
        by_cases h7b : (opEqFollows c && decide (rest.head? = some '=')) = true
        · rw [if_pos h7b, if_pos h7b]
          rw [numProj_cons_skip _ _ (by simp),
            numProj_cons_skip _ _ (by simp)]
          rw [show (rest.map normChar).tail = rest.tail.map normChar from
            (List.map_tail normChar rest).symm]
          exact ih rest.tail line (col + 2)
        · rw [if_neg h7b, if_neg h7b]
          rw [numProj_cons_skip _ _ (by simp),
            numProj_cons_skip _ _ (by simp)]
          exact ih rest line (col + 1)
      rw [if_neg h7, if_neg h7]
      by_cases h8 : punctChar c = true
      · rw [if_pos h8, if_pos h8]
        rw [numProj_cons_skip _ _ (by simp),
          numProj_cons_skip _ _ (by simp)]
        exact ih rest line (col + 1)
      rw [if_neg h8, if_neg h8]
      exact ih rest line (col + 1)

theorem numProj_fix :
    ∀ (fuel : Nat) (cs : List Char) (line col : Nat),
      ∀ v ∈ numProj (tokenizeLoop fuel cs line col).1,
        v.data.map normChar = v.data := by
  intro fuel
  induction fuel with
  | zero =>
    intro cs line col v hv
    cases cs <;> simp [tokenizeLoop, numProj] at hv
  | succ fuel ih =>
    intro cs line col v hv
    cases cs with
    | nil => simp [tokenizeLoop, numProj] at hv
    | cons c rest =>
      rw [tokenizeLoop] at hv
      split at hv
      · exact ih _ _ _ v hv
      split at hv
      · exact ih _ _ _ v hv
      split at hv
      · exact ih _ _ _ v hv
      split at hv
      · rw [numProj_cons_skip _ _ (by simp)] at hv
        exact ih _ _ _ v hv
      split at hv
      · rw [numProj_cons_num _ _ rfl] at hv
        rcases List.mem_cons.mp hv with rfl | hv
        · exact map_norm_idem _
        · exact ih _ _ _ v hv
      split at hv
      · rw [numProj_cons_skip _ _ (by dsimp only; split <;> simp)] at hv
        exact ih _ _ _ v hv
      split at hv
      · split at hv
        · rw [numProj_cons_skip _ _ (by simp)] at hv
          exact ih _ _ _ v hv
        · rw [numProj_cons_skip _ _ (by simp)] at hv
          exact ih _ _ _ v hv
      split at hv
      · rw [numProj_cons_skip _ _ (by simp)] at hv
        exact ih _ _ _ v hv
      · exact ih _ _ _ v hv

def numberVals (code : String) : List String := numProj (tokenize code).1

theorem numberVals_subst (s₁ s₂ : String)
    (h : s₁.data.map normChar = s₂.data.map normChar) :
    numberVals s₁ = numberVals s₂ := by
  have hlen : s₁.data.length = s₂.data.length := by
    have h2 := congrArg List.length h
    simpa using h2
  unfold numberVals tokenize
  rw [← tokenizeLoop_norm s₁.data.length s₁.data 1 1,
    ← tokenizeLoop_norm s₂.data.length s₂.data 1 1, h, hlen]

theorem devanagari_digit_normalization :
    (∀ (code : String), ∀ v ∈ numberVals code,
        v.data.map normChar = v.data) ∧
    (∀ s₁ s₂ : String, s₁.data.map normChar = s₂.data.map normChar →
        numberVals s₁ = numberVals s₂) ∧
    numberVals "५" = ["5"] ∧ numberVals "5" = ["5"] := by
  refine ⟨?_, numberVals_subst, by decide, by decide⟩
  intro code v hv
  exact numProj_fix _ _ _ _ v hv

theorem devanagari_digit_normalization_witness :
    ("5" : String).data.map normChar = ("5" : String).data ∧
      numberVals "५" = numberVals "5" :=
  ⟨devanagari_digit_normalization.1 "५" "5" (by decide),
   devanagari_digit_normalization.2.1 "५" "5" (by decide)⟩


/-! ### Claim C8: the trailing close-out of `generateCpp` (part_003).
The close-out at lines 419–426 runs only under `if (indentLevel > 0)`:
surplus END tokens drive the level to 0 (then nothing is appended and the
output ends in a bare brace) or below (then `getIndent` has already thrown
a RangeError inside the loop).  When the final level is positive the
close-out does exactly what the claim says: one closing brace per
still-open level above the outermost plus the `  return 0;\n}` tail, one
closing brace per open level in total. -/

def braceCount (s : String) : Nat := s.data.count '\x7d'

theorem braceCount_append (a b : String) :
    braceCount (a ++ b) = braceCount a + braceCount b := by
  show (a.data ++ b.data).count _ = _
  exact List.count_append _ _ _

theorem indentStr_no_brace (n : Nat) : braceCount (indentStr n) = 0 := by
  induction n with
  | zero => rfl
  | succ n ih =>
    show braceCount (indentStr n ++ "  ") = 0
    rw [braceCount_append, ih]
    rfl

theorem closeIndents_braces (n : Nat) :
    braceCount (closeIndents n) = n - 1 := by
  induction n with
  | zero => rfl
  | succ n ih =>
    match n, ih with
    | 0, _ => rfl
    | m + 1, ih =>
      show braceCount (indentStr (m + 1) ++ "\x7d\n" ++ closeIndents (m + 1)) =
        m + 1
      rw [braceCount_append, braceCount_append, indentStr_no_brace, ih]
      have hb : braceCount "\x7d\n" = 1 := rfl
      omega

theorem strEndsWith_append_suffix (a b c : String)
    (h : c.data <:+ b.data) : strEndsWith (a ++ b) c = true := by
  unfold strEndsWith
  rw [List.isSuffixOf_iff_suffix]
  exact h.trans (List.suffix_append a.data b.data)

/-- C8 counterexample: the close-out is NOT unconditional.  A single END
token (`samaptam`) drives the indent level from 1 to 0 before stream
exhaustion, the `if (indentLevel > 0)` guard fails, no brace and no return
statement are appended, and the generated source ends in a bare
brace-newline; with two END tokens the level goes negative and
`"  ".repeat(indentLevel)` throws a RangeError instead of reaching the
close-out at all. -/
theorem trailing_return_counterexample :
    ((generateCpp3 [⟨TokenType.KEYWORD, "samaptam", 1, 1⟩]).toOption.map
        (fun s => strEndsWith s "return 0;\n\x7d")) = some false ∧
    generateCpp3 [⟨TokenType.KEYWORD, "samaptam", 1, 1⟩,
        ⟨TokenType.KEYWORD, "samaptam", 2, 1⟩] =
      Except.error "RangeError: Invalid count value" :=
  ⟨by decide, rfl⟩

/-- C8 (amended): when the main loop finishes with a positive indent
level, `generateCpp` appends one closing brace per still-open level above
the outermost and then the trailing `  return 0;\n}`, so the output ends
with the return statement and the wrapper's closing brace, and the
appended text carries exactly one closing brace per open level; with a
final level of zero or below (surplus END tokens) the close-out is
skipped or a RangeError is thrown. -/
theorem trailing_return_when_level_positive (tokens : List Token)
    (cpp : String) (lvl : Int)
    (h : genLoop tokens (tokens.length + 1) 0 cppHeader3 1 =
      Except.ok (cpp, lvl))
    (hpos : 0 < lvl) :
    generateCpp3 tokens =
      Except.ok (cpp ++ closeIndents lvl.toNat ++ "  return 0;\n\x7d") ∧
    strEndsWith (cpp ++ closeIndents lvl.toNat ++ "  return 0;\n\x7d")
      "return 0;\n\x7d" = true ∧
    braceCount (closeIndents lvl.toNat ++ "  return 0;\n\x7d") =
      lvl.toNat := by
  refine ⟨?_, ?_, ?_⟩
  · unfold generateCpp3
    rw [h, bindE_ok]
    rw [if_pos hpos]
    rfl
  · exact strEndsWith_append_suffix _ _ _ (by decide)
  · rw [braceCount_append, closeIndents_braces]
    have h1 : 1 ≤ lvl.toNat := by omega
    have h2 : braceCount "  return 0;\n\x7d" = 1 := by decide
    omega

theorem trailing_return_when_level_positive_witness :
    (generateCpp3 [] =
      Except.ok (cppHeader3 ++ closeIndents (1 : Int).toNat ++
        "  return 0;\n\x7d")) ∧
    strEndsWith (cppHeader3 ++ closeIndents (1 : Int).toNat ++
      "  return 0;\n\x7d") "return 0;\n\x7d" = true ∧
    braceCount (closeIndents (1 : Int).toNat ++ "  return 0;\n\x7d") =
      (1 : Int).toNat :=
  trailing_return_when_level_positive [] cppHeader3 1 rfl (by decide)
